import Mathlib

/-!
# swrap: wrapping a directory tree in a sector friendly image

A shallow embedding of `swrap.c` (`ALIGN_UP`, `append_file`, `walk_dirs`, `wrap`) and the
properties of the image it builds.

Modelling conventions.

* Bytes are natural numbers below 256; a file content is a list of bytes.
* `uint64_t` and `size_t` values are natural numbers, reduced modulo `2 ^ 64` where the C
  arithmetic can wrap; `uint16_t` values are reduced modulo `2 ^ 16`.
* The output descriptor is a byte list together with a file offset.  `lseek` moves the
  offset, `write` overwrites at the offset, filling a hole with zero bytes when the offset
  lies beyond the end of the file.  Writes to the output are assumed to succeed in full.
* The file system is seen through the calls the program makes: a directory stream lists its
  entries in the order `readdir` returns them, and every entry carries what the path built
  for it resolves to (the stream of a subdirectory, or the result of opening a file).
* The eight header bytes are the little-endian image of the `uint64_t` (the byte order of
  the platforms the tool is built for).
-/

namespace Swrap

/-! ## Constants and alignment -/

/-- The sector size: `#define SECTOR_SIZE 512`. -/
def SECTOR_SIZE : Nat := 512

/-- The number of values of a `uint64_t`. -/
def U64 : Nat := 2 ^ 64

/-- The macro `ALIGN_UP(value, align)`, that is `(((value) + (align)-1) & ~((align)-1))`,
at type `uint64_t`: the sum wraps modulo `2 ^ 64` and `~((align)-1)` is the 64-bit
complement of `align - 1`. -/
def ALIGN_UP (value align : Nat) : Nat :=
  ((value + align - 1) % U64) &&& (U64 - 1 - (align - 1))

/-! ## The output file -/

/-- The output file behind `outfd`: its bytes and the current file offset. -/
structure OFile where
  data : List Nat
  pos : Nat
deriving DecidableEq, Repr

/-- The call `lseek(outfd, off, SEEK_SET)`. -/
def lseek (f : OFile) (off : Nat) : OFile :=
  { f with pos := off }

/-- The call `write(outfd, buf, len)` with `buf` holding the `len` bytes written.  A write of
no bytes changes nothing; otherwise the bytes replace what lies at the offset, a gap between
the end of the file and the offset reads as zero bytes, and the offset advances. -/
def write (f : OFile) (buf : List Nat) : OFile :=
  if buf = [] then f
  else
    let base := f.data ++ List.replicate (f.pos - f.data.length) 0
    { data := base.take f.pos ++ buf ++ base.drop (f.pos + buf.length),
      pos := f.pos + buf.length }

/-! ## The file system as the program sees it -/

/-- The value `mmap` returned: `NULL`, `MAP_FAILED` (the error value, `(void *)-1`), or the
address of a valid mapping of the file. -/
inductive Ptr where
  | NULL
  | MAP_FAILED
  | mapped
deriving DecidableEq, Repr

/-- What `open(path, O_RDONLY)` and the calls after it yield for a path: either `open`
fails, or the file has the given content (`lseek` to the end returns its length) and `mmap`
returns `data`. -/
inductive File where
  | unopenable
  | opened (content : List Nat) (data : Ptr)
deriving DecidableEq, Repr

/-- The values of `d_type` other than `DT_DIR` and `DT_REG`. -/
inductive OtherType where
  | DT_UNKNOWN
  | DT_FIFO
  | DT_CHR
  | DT_BLK
  | DT_LNK
  | DT_SOCK
  | DT_WHT
deriving DecidableEq, Repr

/-- The stream of an opened directory: the entries `readdir` returns, in order, until it
returns `NULL` (`eod`).  An entry has its `d_name`, its `d_type` (given by the constructor)
and what the path built for it resolves to.  What is recorded beneath an entry the walk
skips, such as `.` and `..`, is never looked at. -/
inductive Dir where
  /-- The end of the stream: `readdir` returns `NULL`. -/
  | eod : Dir
  /-- An entry with `d_type == DT_DIR` whose path `opendir` opens, with stream `sub`. -/
  | subdir (d_name : List Char) (sub : Dir) (rest : Dir) : Dir
  /-- An entry with `d_type == DT_DIR` for whose path `opendir` returns `NULL`. -/
  | nodir (d_name : List Char) (rest : Dir) : Dir
  /-- An entry with `d_type == DT_REG`; `file` is what opening its path yields. -/
  | reg (d_name : List Char) (file : File) (rest : Dir) : Dir
  /-- An entry of any other type. -/
  | other (d_name : List Char) (d_type : OtherType) (rest : Dir) : Dir
deriving DecidableEq, Repr

/-! ## Program state -/

/-- A line printed by `walk_dirs`: `[d] path` before recursing into `path`, `[f] path` before
passing `path` to `append_file`. -/
inductive Line where
  | d (path : List Char)
  | f (path : List Char)
deriving DecidableEq, Repr

/-- The path a printed line carries. -/
def Line.path : Line → List Char
  | .d path => path
  | .f path => path

/-- The mutable state of a run: the global `total_bytes`, the output file behind `outfd`, and
the lines printed so far. -/
structure St where
  total_bytes : Nat
  out : OFile
  stdout : List Line
deriving DecidableEq, Repr

/-! ## append_file -/

/-- The bytes `write(outfd, data, file_len)` transfers: the content of the file when `data`
is a valid mapping, nothing when it is not (the call fails with `EFAULT`). -/
def mapped_bytes (content : List Nat) : Ptr → List Nat
  | .mapped => content
  | _ => []

/-- The function `append_file(path, outfd)`, where `file` is what `path` resolves to.
The buffer `sect` is static, zero-initialised and never written, so the padding is zero.
The assertion `pad_len < SECTOR_SIZE` holds whenever it is reached, since `misalign` is
not zero there, so it is no branch of the function. -/
def append_file (file : File) (st : St) : St :=
  match file with
  | .unopenable => st
  | .opened content data =>
    let file_len := content.length
    if data = Ptr.NULL then st
    else
      let total_bytes := (st.total_bytes + file_len) % U64
      let out := write st.out (mapped_bytes content data)
      let misalign := (total_bytes &&& (SECTOR_SIZE - 1)) % 2 ^ 16
      if misalign ≠ 0 then
        let pad_len := SECTOR_SIZE - misalign
        { st with total_bytes := total_bytes, out := write out (List.replicate pad_len 0) }
      else
        { st with total_bytes := total_bytes, out := out }

/-! ## walk_dirs -/

/-- The test `dirent->d_name[0] == '.'` (the first byte of an empty name is the terminator). -/
def hidden (d_name : List Char) : Bool :=
  d_name.head? = some '.'

/-- The call `snprintf(pathbuf, sizeof(pathbuf), "%s/%s", dirpath, d_name)` with the 256-byte
`pathbuf`: at most 255 bytes of the joined string are kept. -/
def snprintf (dirpath d_name : List Char) : List Char :=
  (dirpath ++ '/' :: d_name).take 255

/-- The `while` loop of `walk_dirs(dirpath, outfd)` over the stream of the opened directory.
The recursive call `walk_dirs(pathbuf, outfd)` runs this loop over the subdirectory when
`opendir` succeeds and only returns `-1` when it fails; its return value is not used. -/
def walk_loop (dirpath : List Char) : Dir → St → St
  | .eod, st => st
  | .subdir d_name sub rest, st =>
    if hidden d_name then walk_loop dirpath rest st
    else
      let pathbuf := snprintf dirpath d_name
      let st := { st with stdout := st.stdout ++ [Line.d pathbuf] }
      walk_loop dirpath rest (walk_loop pathbuf sub st)
  | .nodir d_name rest, st =>
    if hidden d_name then walk_loop dirpath rest st
    else
      let pathbuf := snprintf dirpath d_name
      let st := { st with stdout := st.stdout ++ [Line.d pathbuf] }
      walk_loop dirpath rest st
  | .reg d_name file rest, st =>
    if hidden d_name then walk_loop dirpath rest st
    else
      let pathbuf := snprintf dirpath d_name
      let st := { st with stdout := st.stdout ++ [Line.f pathbuf] }
      walk_loop dirpath rest (append_file file st)
  | .other d_name _ rest, st =>
    if hidden d_name then walk_loop dirpath rest st
    else walk_loop dirpath rest st

/-- The function `walk_dirs(dirpath, outfd)`: `dir` is what `opendir(dirpath)` yields, `none`
for `NULL`.  Returns the `int` result and the state. -/
def walk_dirs (dirpath : List Char) (dir : Option Dir) (st : St) : Int × St :=
  match dir with
  | none => (-1, st)
  | some entries => (0, walk_loop dirpath entries st)

/-! ## wrap -/

/-- The eight bytes of a `uint64_t` in memory, least significant first. -/
def le64 (v : Nat) : List Nat :=
  (List.range 8).map (fun i => v / 256 ^ i % 256)

/-- The number a little-endian byte string denotes. -/
def decode_le : List Nat → Nat
  | [] => 0
  | b :: bs => b + 256 * decode_le bs

/-- The function `wrap()`.  `input` is what `opendir(input_dir)` yields; `output` is `none`
when `open(output_file, O_RDWR | O_CREAT, 0666)` fails and otherwise the content of the file
at that moment (empty when the call creates it); `total_bytes` is the value of the global on
entry (`0` when called from `main`).  Returns the `int` result and, when the output was
opened, the final state. -/
def wrap (input_dir : List Char) (input : Option Dir) (output : Option (List Nat))
    (total_bytes : Nat) : Int × Option St :=
  match output with
  | none => (-1, none)
  | some prior =>
    let st : St := { total_bytes := total_bytes, out := lseek ⟨prior, 0⟩ SECTOR_SIZE, stdout := [] }
    let r := walk_dirs input_dir input st
    if r.1 < 0 then (r.1, some r.2)
    else
      let st := r.2
      let total_bytes := ALIGN_UP st.total_bytes SECTOR_SIZE
      let out := write (lseek st.out 0) (le64 total_bytes)
      (0, some { st with total_bytes := total_bytes, out := out })

/-- The image left at the output path by a run of `wrap` (empty when there is none). -/
def image (r : Int × Option St) : List Nat :=
  match r.2 with
  | none => []
  | some st => st.out.data

/-- The value stored in bytes 0-7 of an image. -/
def header_value (img : List Nat) : Nat :=
  decode_le (img.take 8)

/-- The payload region of an image: everything from offset 512 on. -/
def payload (img : List Nat) : List Nat :=
  img.drop SECTOR_SIZE

/-! ## What a run appends, as functions of the running total on entry -/

/-- The number of padding bytes `append_file` writes once the running total is `total`. -/
def pad_len (total : Nat) : Nat :=
  if total % 512 = 0 then 0 else 512 - total % 512

/-- The running total after `append_file` on `file`, given the total on entry. -/
def file_total : File → Nat → Nat
  | .unopenable, t => t
  | .opened content data, t => if data = Ptr.NULL then t else (t + content.length) % U64

/-- The bytes `append_file` sends to the output for `file`, given the total on entry. -/
def file_bytes : File → Nat → List Nat
  | .unopenable, _ => []
  | .opened content data, t =>
    if data = Ptr.NULL then []
    else mapped_bytes content data ++ List.replicate (pad_len ((t + content.length) % U64)) 0

/-- The running total after the loop of `walk_dirs` over a stream, given the total on entry. -/
def walk_total : Dir → Nat → Nat
  | .eod, t => t
  | .subdir d_name sub rest, t =>
    if hidden d_name then walk_total rest t else walk_total rest (walk_total sub t)
  | .nodir _ rest, t => walk_total rest t
  | .reg d_name file rest, t =>
    if hidden d_name then walk_total rest t else walk_total rest (file_total file t)
  | .other _ _ rest, t => walk_total rest t

/-- The bytes the loop of `walk_dirs` sends to the output, given the total on entry. -/
def walk_bytes : Dir → Nat → List Nat
  | .eod, _ => []
  | .subdir d_name sub rest, t =>
    if hidden d_name then walk_bytes rest t
    else walk_bytes sub t ++ walk_bytes rest (walk_total sub t)
  | .nodir _ rest, t => walk_bytes rest t
  | .reg d_name file rest, t =>
    if hidden d_name then walk_bytes rest t
    else file_bytes file t ++ walk_bytes rest (file_total file t)
  | .other _ _ rest, t => walk_bytes rest t

/-- The lines the loop of `walk_dirs` prints. -/
def walk_lines (dirpath : List Char) : Dir → List Line
  | .eod => []
  | .subdir d_name sub rest =>
    if hidden d_name then walk_lines dirpath rest
    else Line.d (snprintf dirpath d_name) :: (walk_lines (snprintf dirpath d_name) sub
      ++ walk_lines dirpath rest)
  | .nodir d_name rest =>
    if hidden d_name then walk_lines dirpath rest
    else Line.d (snprintf dirpath d_name) :: walk_lines dirpath rest
  | .reg d_name _ rest =>
    if hidden d_name then walk_lines dirpath rest
    else Line.f (snprintf dirpath d_name) :: walk_lines dirpath rest
  | .other _ _ rest => walk_lines dirpath rest

/-! ## The layout the format describes -/

/-- The least multiple of 512 that is at least `n`. -/
def round_up (n : Nat) : Nat :=
  (n + 511) / 512 * 512

/-- A file content followed by zero bytes up to the next multiple of 512. -/
def padded (content : List Nat) : List Nat :=
  content ++ List.replicate (round_up content.length - content.length) 0

/-- The payload region the format describes for files with the given contents, in order:
each content followed by zero bytes up to the next multiple of 512. -/
def layout : List (List Nat) → List Nat
  | [] => []
  | content :: rest => padded content ++ layout rest

/-- The stream of a directory holding regular files only, readable, with the given names and
contents in listing order. -/
def flat_dir : List (List Char × List Nat) → Dir
  | [] => Dir.eod
  | (d_name, content) :: rest => Dir.reg d_name (File.opened content Ptr.mapped) (flat_dir rest)

/-- The pre-order depth-first flattening of a tree in listing order, as the format describes
the traversal: a directory entry that is not hidden contributes, at its own position, the
files beneath it; a regular file that is not hidden contributes itself, under the path the
walker names it by; any other entry contributes nothing.  A directory that cannot be opened
has nothing beneath it. -/
def flatten (dirpath : List Char) : Dir → List (List Char × File)
  | .eod => []
  | .subdir d_name sub rest =>
    (if hidden d_name then [] else flatten (snprintf dirpath d_name) sub) ++ flatten dirpath rest
  | .nodir _ rest => flatten dirpath rest
  | .reg d_name file rest =>
    (if hidden d_name then [] else [(snprintf dirpath d_name, file)]) ++ flatten dirpath rest
  | .other _ _ rest => flatten dirpath rest

/-- The paths passed to `append_file`, read off the printed lines: each call is preceded by
its `[f]` line. -/
def appended_paths : List Line → List (List Char)
  | [] => []
  | Line.f path :: rest => path :: appended_paths rest
  | Line.d _ :: rest => appended_paths rest

/-! ## A worked scenario -/

/-- The content of `a.txt`: the three bytes `abc`. -/
def abc : List Nat := [97, 98, 99]

/-- The content of `b.txt`: 600 bytes. -/
def b600 : List Nat := List.replicate 600 98

/-- The name of the input directory of the scenario. -/
def indir : List Char := ['i', 'n']

/-- An input directory holding `a.txt` (3 bytes) and a subdirectory `sub` holding `b.txt`
(600 bytes). -/
def scenario : Dir :=
  .reg ['a', '.', 't', 'x', 't'] (.opened abc .mapped)
    (.subdir ['s', 'u', 'b']
      (.reg ['b', '.', 't', 'x', 't'] (.opened b600 .mapped) .eod)
      .eod)

/-- The state of `wrap` before the walk, for a fresh output: total zero, offset 512. -/
def start : St :=
  { total_bytes := 0, out := lseek ⟨[], 0⟩ SECTOR_SIZE, stdout := [] }

/-- The content of `c.txt`: the two bytes `xy`. -/
def xy : List Nat := [120, 121]

/-- A flat input directory holding `a.txt` (3 bytes), `b.txt` (600 bytes) and `c.txt`
(2 bytes), in that order. -/
def three_files : Dir :=
  flat_dir [(['a', '.', 't', 'x', 't'], abc), (['b', '.', 't', 'x', 't'], b600),
    (['c', '.', 't', 'x', 't'], xy)]

/-- A flat input directory holding `a.txt` (3 bytes) only. -/
def one_file : Dir :=
  flat_dir [(['a', '.', 't', 'x', 't'], abc)]

/-- A prior content of the output file: 1100 bytes of value 7. -/
def old_image : List Nat := List.replicate 1100 7

/-- An input directory whose only entry is a subdirectory `sub` that cannot be opened. -/
def locked_sub : Dir :=
  .nodir ['s', 'u', 'b'] .eod

/-! ## Sequences of files -/

/-- The running total after `append_file` on each file of a sequence in turn. -/
def files_total : List File → Nat → Nat
  | [], t => t
  | file :: rest, t => files_total rest (file_total file t)

/-- The bytes sent to the output by `append_file` on each file of a sequence in turn. -/
def files_bytes : List File → Nat → List Nat
  | [], _ => []
  | file :: rest, t => file_bytes file t ++ files_bytes rest (file_total file t)

/-! ## Files appended in full -/

/-- The content of a file (empty when it cannot be opened). -/
def File.content : File → List Nat
  | .unopenable => []
  | .opened content _ => content

/-- Whether `append_file` appends the file in full: it opens, `mmap` does not return `NULL`,
and the write transfers the whole content (the mapping is valid, or the file is empty and
there is nothing to transfer). -/
def File.appended : File → Bool
  | .unopenable => false
  | .opened content data => data ≠ Ptr.NULL && (mapped_bytes content data == content)

/-- The sum of the byte lengths of a sequence of files. -/
def total_length (fs : List File) : Nat :=
  (fs.map (fun f => f.content.length)).sum

/-- The cumulative totals after each of a sequence of lengths, starting from `t`. -/
def cumulative : List Nat → Nat → List Nat
  | [], _ => []
  | n :: rest, t => (t + n) :: cumulative rest (t + n)

/-! ## append_file with its assertion -/

/-- The function `append_file` with `assert(pad_len < SECTOR_SIZE)` as a branch: `none` when
the assertion fails and the program aborts.  Here `pad_len` is the `size_t` the code
computes, so a `misalign` above 512 would wrap it. -/
def append_file_checked (file : File) (st : St) : Option St :=
  match file with
  | .unopenable => some st
  | .opened content data =>
    let file_len := content.length
    if data = Ptr.NULL then some st
    else
      let total_bytes := (st.total_bytes + file_len) % U64
      let out := write st.out (mapped_bytes content data)
      let misalign := (total_bytes &&& (SECTOR_SIZE - 1)) % 2 ^ 16
      if misalign ≠ 0 then
        let pad_len := (SECTOR_SIZE + U64 - misalign) % U64
        if pad_len < SECTOR_SIZE then
          some { st with total_bytes := total_bytes,
                         out := write out (List.replicate pad_len 0) }
        else none
      else
        some { st with total_bytes := total_bytes, out := out }

/-! ## A long directory path -/

/-- A directory path of 250 bytes. -/
def long_dir : List Char := List.replicate 250 'd'

/-- The entry name `abcdefgh`. -/
def long_name : List Char := ['a', 'b', 'c', 'd', 'e', 'f', 'g', 'h']

/-- A directory whose only entry is the regular file `abcdefgh`.  Under `long_dir` the path
built for it is cut after `abcd`; no entry has that name, so `open` fails on it. -/
def long_entry : Dir :=
  .reg long_name .unopenable .eod

/-- A flat input directory holding `a.txt` (3 bytes) and `c.txt` (2 bytes), in that order. -/
def two_small : Dir :=
  flat_dir [(['a', '.', 't', 'x', 't'], abc), (['c', '.', 't', 'x', 't'], xy)]

/-! ## Arithmetic of the masks -/

theorem misalign_eq_mod (t : Nat) : (t &&& (SECTOR_SIZE - 1)) % 2 ^ 16 = t % 512 := by
  have h : t &&& (SECTOR_SIZE - 1) = t % 2 ^ 9 := Nat.and_pow_two_sub_one_eq_mod t 9
  rw [h]
  have : t % 2 ^ 9 < 2 ^ 9 := Nat.mod_lt _ (by norm_num)
  omega

theorem misalign_norm (t : Nat) : (t &&& 511) % 65536 = t % 512 :=
  misalign_eq_mod t

theorem assertion_holds (t : Nat) (h : (t &&& (SECTOR_SIZE - 1)) % 2 ^ 16 ≠ 0) :
    SECTOR_SIZE - (t &&& (SECTOR_SIZE - 1)) % 2 ^ 16 < SECTOR_SIZE := by
  unfold SECTOR_SIZE at *
  omega

theorem ALIGN_UP_mod (v : Nat) : ALIGN_UP v SECTOR_SIZE % 512 = 0 := by
  unfold ALIGN_UP SECTOR_SIZE U64
  have h := Nat.and_pow_two_sub_one_eq_mod (((v + 512 - 1) % 2 ^ 64) &&& (2 ^ 64 - 1 - (512 - 1))) 9
  rw [show (((v + 512 - 1) % 2 ^ 64) &&& (2 ^ 64 - 1 - (512 - 1))) % 512
      = (((v + 512 - 1) % 2 ^ 64) &&& (2 ^ 64 - 1 - (512 - 1))) % 2 ^ 9 by norm_num, ← h,
    Nat.and_assoc]
  have : (2 ^ 64 - 1 - (512 - 1)) &&& (2 ^ 9 - 1) = 0 := by decide
  rw [this, Nat.and_zero]

theorem ALIGN_UP_lt (v : Nat) : ALIGN_UP v SECTOR_SIZE < 2 ^ 64 := by
  unfold ALIGN_UP U64
  exact lt_of_le_of_lt Nat.and_le_left (Nat.mod_lt _ (by norm_num))

theorem decode_le_le64 (v : Nat) : decode_le (le64 v) = v % 2 ^ 64 := by
  simp [le64, List.range, List.range.loop, decode_le]
  omega

/-! ## Writes to the output file -/

theorem write_nil (f : OFile) : write f [] = f := by
  simp [write]

theorem take_append_drop_aux {α : Type} (X Y : List α) (n k : Nat) (h : X.length = n) :
    (X ++ Y).take n = X ∧ (X ++ Y).drop (n + k) = Y.drop k := by
  subst h
  constructor
  · simp
  · rw [List.drop_append]

theorem write_write (f : OFile) (a b : List Nat) :
    write (write f a) b = write f (a ++ b) := by
  by_cases ha : a = []
  · subst ha; simp [write]
  by_cases hb : b = []
  · subst hb; simp [write]
  have hab : a ++ b ≠ [] := by simp [ha]
  simp only [write, ha, hb, hab, if_false]
  generalize hL : f.data ++ List.replicate (f.pos - f.data.length) 0 = L
  have hlen : f.pos ≤ L.length := by
    rw [← hL]; simp; omega
  have ht : (L.take f.pos ++ a).length = f.pos + a.length := by
    simp [List.length_take, Nat.min_eq_left hlen]
  have hrep : f.pos + a.length - (L.take f.pos ++ a ++ L.drop (f.pos + a.length)).length = 0 := by
    simp [List.length_take, Nat.min_eq_left hlen]
  rw [hrep]
  simp only [List.replicate_zero, List.append_nil]
  obtain ⟨h1, h2⟩ := take_append_drop_aux (L.take f.pos ++ a) (L.drop (f.pos + a.length))
    (f.pos + a.length) b.length ht
  rw [h1, h2]
  simp [List.drop_drop, Nat.add_assoc, Nat.add_comm, Nat.add_left_comm]

theorem append_file_eq (file : File) (st : St) :
    append_file file st =
      { st with total_bytes := file_total file st.total_bytes,
                out := write st.out (file_bytes file st.total_bytes) } := by
  cases file with
  | unopenable => simp [append_file, file_total, file_bytes, write_nil]
  | opened content data =>
    by_cases hd : data = Ptr.NULL
    · simp [append_file, file_total, file_bytes, write_nil, hd]
    · by_cases hm : (st.total_bytes + content.length) % U64 % 512 = 0
      · simp [append_file, file_total, file_bytes, hd, pad_len, SECTOR_SIZE, misalign_norm, hm,
          write_nil]
      · simp [append_file, file_total, file_bytes, hd, pad_len, SECTOR_SIZE, misalign_norm, hm,
          write_write]

theorem walk_loop_eq (dirpath : List Char) (l : Dir) (st : St) :
    walk_loop dirpath l st =
      { total_bytes := walk_total l st.total_bytes,
        out := write st.out (walk_bytes l st.total_bytes),
        stdout := st.stdout ++ walk_lines dirpath l } := by
  induction l generalizing dirpath st with
  | eod => simp [walk_loop, walk_total, walk_bytes, walk_lines, write_nil]
  | subdir d_name sub rest ihs ihr =>
    by_cases h : hidden d_name
    · simp [walk_loop, walk_total, walk_bytes, walk_lines, h, ihr]
    · simp [walk_loop, walk_total, walk_bytes, walk_lines, h, ihr, ihs, write_write]
  | nodir d_name rest ihr =>
    by_cases h : hidden d_name
    · simp [walk_loop, walk_total, walk_bytes, walk_lines, h, ihr]
    · simp [walk_loop, walk_total, walk_bytes, walk_lines, h, ihr]
  | reg d_name file rest ihr =>
    by_cases h : hidden d_name
    · simp [walk_loop, walk_total, walk_bytes, walk_lines, h, ihr]
    · simp [walk_loop, walk_total, walk_bytes, walk_lines, h, ihr, append_file_eq, write_write]
  | other d_name ty rest ihr =>
    simp [walk_loop, walk_total, walk_bytes, walk_lines, ihr]

/-! ## The image a successful run leaves -/

theorem le64_length (v : Nat) : (le64 v).length = 8 := by
  simp [le64]

theorem le64_ne_nil (v : Nat) : le64 v ≠ [] := by
  intro h
  have := le64_length v
  rw [h] at this
  simp at this

theorem header_write (d : List Nat) (v : Nat) :
    (write ⟨d, 0⟩ (le64 v)).data = le64 v ++ d.drop 8 := by
  simp [write, le64_ne_nil, le64_length]

theorem write_at_sector (prior W : List Nat) :
    (write ⟨prior, 512⟩ W).data.drop 512 = W ++ prior.drop (512 + W.length) := by
  by_cases h : W = []
  · subst h; simp [write]
  · simp only [write, h, if_false]
    generalize hL : prior ++ List.replicate (512 - prior.length) 0 = L
    have hlen : 512 ≤ L.length := by
      rw [← hL]; simp; omega
    have ht : (L.take 512).length = 512 := by
      simp [List.length_take, Nat.min_eq_left hlen]
    have hd : L.drop (512 + W.length) = prior.drop (512 + W.length) := by
      rw [← hL, List.drop_append_eq_append_drop]
      have : 512 + W.length - prior.length ≥ (List.replicate (512 - prior.length) 0).length := by
        simp; omega
      rw [List.drop_eq_nil_of_le this, List.append_nil]
    obtain ⟨-, h2⟩ := take_append_drop_aux (L.take 512) (W ++ L.drop (512 + W.length)) 512 0 ht
    rw [List.append_assoc, show (512 : Nat) = 512 + 0 by rfl, h2, hd]
    simp

theorem wrap_some (p : List Char) (l : Dir) (prior : List Nat) (t0 : Nat) :
    wrap p (some l) (some prior) t0 =
      (0, some
        { total_bytes := ALIGN_UP (walk_total l t0) SECTOR_SIZE,
          out := write ⟨(write ⟨prior, 512⟩ (walk_bytes l t0)).data, 0⟩
            (le64 (ALIGN_UP (walk_total l t0) SECTOR_SIZE)),
          stdout := walk_lines p l }) := by
  simp [wrap, walk_dirs, walk_loop_eq, lseek, SECTOR_SIZE]

theorem image_wrap (p : List Char) (l : Dir) (prior : List Nat) (t0 : Nat) :
    image (wrap p (some l) (some prior) t0) =
      le64 (ALIGN_UP (walk_total l t0) SECTOR_SIZE)
        ++ (write ⟨prior, 512⟩ (walk_bytes l t0)).data.drop 8 := by
  rw [wrap_some]
  simp only [image, header_write]

theorem header_wrap (p : List Char) (l : Dir) (prior : List Nat) (t0 : Nat) :
    header_value (image (wrap p (some l) (some prior) t0)) =
      ALIGN_UP (walk_total l t0) SECTOR_SIZE := by
  rw [image_wrap, header_value]
  obtain ⟨h1, -⟩ := take_append_drop_aux (le64 (ALIGN_UP (walk_total l t0) SECTOR_SIZE))
    ((write ⟨prior, 512⟩ (walk_bytes l t0)).data.drop 8) 8 0 (le64_length _)
  rw [h1, decode_le_le64]
  exact Nat.mod_eq_of_lt (ALIGN_UP_lt _)

theorem payload_wrap (p : List Char) (l : Dir) (prior : List Nat) (t0 : Nat) :
    payload (image (wrap p (some l) (some prior) t0)) =
      walk_bytes l t0 ++ prior.drop (512 + (walk_bytes l t0).length) := by
  rw [image_wrap]
  unfold payload
  refine Eq.trans ?_ (write_at_sector prior _)
  have h2 := (take_append_drop_aux (le64 (ALIGN_UP (walk_total l t0) SECTOR_SIZE))
    ((write ⟨prior, 512⟩ (walk_bytes l t0)).data.drop 8) 8 504 (le64_length _)).2
  rw [List.drop_drop] at h2
  exact h2

/-! ## Closed forms for readable files -/

theorem write_pos (f : OFile) (W : List Nat) : (write f W).pos = f.pos + W.length := by
  by_cases h : W = []
  · subst h; simp [write]
  · simp [write, h]

theorem file_bytes_mapped (c : List Nat) (t : Nat) :
    file_bytes (.opened c .mapped) t
      = c ++ List.replicate (pad_len ((t + c.length) % U64)) 0 := by
  simp [file_bytes, mapped_bytes]

theorem file_total_mapped (c : List Nat) (t : Nat) :
    file_total (.opened c .mapped) t = (t + c.length) % U64 := by
  simp [file_total]

theorem abc_length : abc.length = 3 := rfl

theorem b600_length : b600.length = 600 := by
  unfold b600; exact List.length_replicate _ _

theorem old_image_length : old_image.length = 1100 := by
  unfold old_image; exact List.length_replicate _ _

theorem scenario_total : walk_total scenario 0 = 603 := by
  simp only [scenario, walk_total, hidden, List.head?, file_total_mapped, abc_length,
    b600_length]
  simp [U64]

theorem scenario_bytes :
    walk_bytes scenario 0
      = abc ++ List.replicate 509 0 ++ (b600 ++ List.replicate 421 0) := by
  simp only [scenario, walk_bytes, walk_total, hidden, List.head?, file_bytes_mapped,
    file_total_mapped, abc_length, b600_length]
  have h1 : pad_len ((0 + 3) % U64) = 509 := by decide
  have h2 : pad_len (((0 + 3) % U64 + 600) % U64) = 421 := by decide
  rw [h1, h2]
  simp [-List.reduceReplicate]

theorem one_file_bytes : walk_bytes one_file 0 = abc ++ List.replicate 509 0 := by
  simp only [one_file, flat_dir, walk_bytes, hidden, List.head?, file_bytes_mapped, abc_length]
  have h1 : pad_len ((0 + 3) % U64) = 509 := by decide
  rw [h1]
  simp [-List.reduceReplicate]

theorem three_files_bytes :
    walk_bytes three_files 0
      = (abc ++ List.replicate 509 0 ++ (b600 ++ List.replicate 421 0))
        ++ (xy ++ List.replicate 419 0) := by
  simp only [three_files, flat_dir, walk_bytes, walk_total, hidden, List.head?,
    file_bytes_mapped, file_total_mapped, abc_length, b600_length]
  have h1 : pad_len ((0 + 3) % U64) = 509 := by decide
  have h2 : pad_len (((0 + 3) % U64 + 600) % U64) = 421 := by decide
  have h3 : pad_len ((((0 + 3) % U64 + 600) % U64 + xy.length) % U64) = 419 := by decide
  rw [h1, h2, h3]
  simp [-List.reduceReplicate]

theorem write_at_end (f : OFile) (W : List Nat) (h : f.pos = f.data.length) :
    write f W = ⟨f.data ++ W, f.data.length + W.length⟩ := by
  by_cases hw : W = []
  · subst hw
    cases f
    simp_all [write]
  · simp [write, hw, h]

theorem write_hole (n : Nat) (W : List Nat) (h : W ≠ []) :
    write ⟨[], n⟩ W = ⟨List.replicate n 0 ++ W, n + W.length⟩ := by
  simp [write, h]

/-! ## Sequences of files and the traversal -/

theorem files_total_append (a b : List File) (t : Nat) :
    files_total (a ++ b) t = files_total b (files_total a t) := by
  induction a generalizing t with
  | nil => rfl
  | cons f a ih => simp [files_total, ih]

theorem files_bytes_append (a b : List File) (t : Nat) :
    files_bytes (a ++ b) t = files_bytes a t ++ files_bytes b (files_total a t) := by
  induction a generalizing t with
  | nil => rfl
  | cons f a ih => simp [files_bytes, files_total, ih]

theorem foldl_append_file (fs : List File) (st : St) :
    fs.foldl (fun s f => append_file f s) st =
      { total_bytes := files_total fs st.total_bytes,
        out := write st.out (files_bytes fs st.total_bytes),
        stdout := st.stdout } := by
  induction fs generalizing st with
  | nil => simp [files_total, files_bytes, write_nil]
  | cons f fs ih =>
    rw [List.foldl_cons, ih, append_file_eq]
    simp [files_total, files_bytes, write_write]

theorem walk_total_flatten (p : List Char) (l : Dir) (t : Nat) :
    walk_total l t = files_total ((flatten p l).map Prod.snd) t := by
  induction l generalizing p t with
  | eod => rfl
  | subdir d_name sub rest ihs ihr =>
    by_cases h : hidden d_name
    · simp [walk_total, flatten, h, ihr p]
    · simp [walk_total, flatten, h, files_total_append, ← ihs (snprintf p d_name), ← ihr p]
  | nodir d_name rest ihr => simp [walk_total, flatten, ihr p]
  | reg d_name file rest ihr =>
    by_cases h : hidden d_name
    · simp [walk_total, flatten, h, ihr p]
    · simp [walk_total, flatten, h, files_total, ← ihr p]
  | other d_name ty rest ihr => simp [walk_total, flatten, ihr p]

theorem walk_bytes_flatten (p : List Char) (l : Dir) (t : Nat) :
    walk_bytes l t = files_bytes ((flatten p l).map Prod.snd) t := by
  induction l generalizing p t with
  | eod => rfl
  | subdir d_name sub rest ihs ihr =>
    by_cases h : hidden d_name
    · simp [walk_bytes, flatten, h, ihr p]
    · simp [walk_bytes, flatten, h, files_bytes_append, ← ihs (snprintf p d_name), ← ihr p,
        ← walk_total_flatten]
  | nodir d_name rest ihr => simp [walk_bytes, flatten, ihr p]
  | reg d_name file rest ihr =>
    by_cases h : hidden d_name
    · simp [walk_bytes, flatten, h, ihr p]
    · simp [walk_bytes, flatten, h, files_bytes, ← ihr p]
  | other d_name ty rest ihr => simp [walk_bytes, flatten, ihr p]

theorem appended_paths_append (a b : List Line) :
    appended_paths (a ++ b) = appended_paths a ++ appended_paths b := by
  induction a with
  | nil => rfl
  | cons x a ih => cases x <;> simp [appended_paths, ih]

theorem appended_paths_walk_lines (p : List Char) (l : Dir) :
    appended_paths (walk_lines p l) = (flatten p l).map Prod.fst := by
  induction l generalizing p with
  | eod => rfl
  | subdir d_name sub rest ihs ihr =>
    by_cases h : hidden d_name
    · simp [walk_lines, flatten, h, ihr]
    · simp [walk_lines, flatten, h, appended_paths, appended_paths_append, ihs, ihr]
  | nodir d_name rest ihr =>
    by_cases h : hidden d_name
    · simp [walk_lines, flatten, h, ihr]
    · simp [walk_lines, flatten, h, appended_paths, ihr]
  | reg d_name file rest ihr =>
    by_cases h : hidden d_name
    · simp [walk_lines, flatten, h, ihr]
    · simp [walk_lines, flatten, h, appended_paths, ihr]
  | other d_name ty rest ihr => simp [walk_lines, flatten, ihr]

/-! ## Hidden entries -/

theorem walk_lines_built (p : List Char) (l : Dir) :
    ∀ ln ∈ walk_lines p l, ∃ parent d_name, ln.path = snprintf parent d_name ∧
      hidden d_name = false ∧ (parent = p ∨ Line.d parent ∈ walk_lines p l) := by
  induction l generalizing p with
  | eod => simp [walk_lines]
  | subdir n sub rest ihs ihr =>
    by_cases h : hidden n
    · simp only [walk_lines, h, if_true]; exact ihr p
    · simp only [walk_lines, h]
      intro ln hln
      simp only [Bool.false_eq_true, if_false, List.mem_cons, List.mem_append] at hln ⊢
      rcases hln with rfl | hln | hln
      · exact ⟨p, n, rfl, by simpa using h, Or.inl rfl⟩
      · obtain ⟨par, nm, e, hh, hor⟩ := ihs _ ln hln
        refine ⟨par, nm, e, hh, Or.inr ?_⟩
        rcases hor with rfl | hm
        · exact Or.inl rfl
        · exact Or.inr (Or.inl hm)
      · obtain ⟨par, nm, e, hh, hor⟩ := ihr p ln hln
        refine ⟨par, nm, e, hh, ?_⟩
        rcases hor with rfl | hm
        · exact Or.inl rfl
        · exact Or.inr (Or.inr (Or.inr hm))
  | nodir n rest ihr =>
    by_cases h : hidden n
    · simp only [walk_lines, h, if_true]; exact ihr p
    · simp only [walk_lines, h]
      intro ln hln
      simp only [Bool.false_eq_true, if_false, List.mem_cons] at hln ⊢
      rcases hln with rfl | hln
      · exact ⟨p, n, rfl, by simpa using h, Or.inl rfl⟩
      · obtain ⟨par, nm, e, hh, hor⟩ := ihr p ln hln
        refine ⟨par, nm, e, hh, ?_⟩
        rcases hor with rfl | hm
        · exact Or.inl rfl
        · exact Or.inr (Or.inr hm)
  | reg n file rest ihr =>
    by_cases h : hidden n
    · simp only [walk_lines, h, if_true]; exact ihr p
    · simp only [walk_lines, h]
      intro ln hln
      simp only [Bool.false_eq_true, if_false, List.mem_cons] at hln ⊢
      rcases hln with rfl | hln
      · exact ⟨p, n, rfl, by simpa using h, Or.inl rfl⟩
      · obtain ⟨par, nm, e, hh, hor⟩ := ihr p ln hln
        refine ⟨par, nm, e, hh, ?_⟩
        rcases hor with rfl | hm
        · exact Or.inl rfl
        · exact Or.inr (Or.inr hm)
  | other n ty rest ihr =>
    simp only [walk_lines]; exact ihr p

/-! ## States of the scenario -/

theorem after_abc :
    append_file (.opened abc .mapped) start =
      { total_bytes := 3,
        out := ⟨List.replicate 512 0 ++ (abc ++ List.replicate 509 0), 1024⟩,
        stdout := [] } := by
  have h1 : pad_len (3 % U64) = 509 := by decide
  have hne : abc ++ List.replicate 509 0 ≠ [] := by
    intro h; have := congrArg List.length h
    simp [-List.reduceReplicate, abc_length] at this
  rw [append_file_eq, file_bytes_mapped, file_total_mapped]
  simp only [start, lseek, SECTOR_SIZE, abc_length, Nat.zero_add, h1]
  rw [write_hole 512 _ hne]
  simp [-List.reduceReplicate, abc_length, U64]

/-! ## The value ALIGN_UP computes -/

theorem and_sector_mask (x : Nat) (hx : x < 2 ^ 64) :
    x &&& (2 ^ 64 - 1 - 511) = x / 512 * 512 := by
  have hq : 2 ^ 9 * (x / 2 ^ 9) < 2 ^ 64 :=
    lt_of_le_of_lt (Nat.mul_div_le x (2 ^ 9)) hx
  have hr : x % 2 ^ 9 < 2 ^ 9 := Nat.mod_lt x (by norm_num)
  have h1 : (2 ^ 9 * (x / 2 ^ 9)) &&& (2 ^ 64 - 1 - 511) = 2 ^ 9 * (x / 2 ^ 9) := by
    have a := Nat.and_pow_two_sub_one_of_lt_two_pow hq
    have m : (2 ^ 64 - 1 : Nat) = (2 ^ 64 - 1 - 511) ||| (2 ^ 9 - 1) := by decide
    rw [m, Nat.and_or_distrib_left, Nat.and_pow_two_sub_one_eq_mod, Nat.mul_mod_right,
      Nat.or_zero] at a
    exact a
  have h2 : (x % 2 ^ 9) &&& (2 ^ 64 - 1 - 511) = 0 := by
    have r := Nat.and_pow_two_sub_one_of_lt_two_pow hr
    rw [← r, Nat.and_assoc]
    have z : (2 ^ 9 - 1) &&& (2 ^ 64 - 1 - 511) = 0 := by decide
    rw [z, Nat.and_zero]
  have hx2 : 2 ^ 9 * (x / 2 ^ 9) ||| x % 2 ^ 9 = x := by
    rw [← Nat.mul_add_lt_is_or hr]
    exact Nat.div_add_mod x (2 ^ 9)
  calc x &&& (2 ^ 64 - 1 - 511)
      = (2 ^ 9 * (x / 2 ^ 9) ||| x % 2 ^ 9) &&& (2 ^ 64 - 1 - 511) := by rw [hx2]
    _ = 2 ^ 9 * (x / 2 ^ 9) := by rw [Nat.and_distrib_right, h1, h2, Nat.or_zero]
    _ = x / 512 * 512 := by norm_num [Nat.mul_comm]

theorem ALIGN_UP_eq (v : Nat) :
    ALIGN_UP v SECTOR_SIZE = (v + 511) % 2 ^ 64 / 512 * 512 := by
  unfold ALIGN_UP SECTOR_SIZE U64
  exact and_sector_mask _ (Nat.mod_lt _ (by norm_num))

theorem ALIGN_UP_round_up (v : Nat) (h : v + 511 < 2 ^ 64) :
    ALIGN_UP v SECTOR_SIZE = round_up v := by
  rw [ALIGN_UP_eq, Nat.mod_eq_of_lt h, round_up]

theorem ALIGN_UP_round_up_mod (v : Nat) :
    ALIGN_UP v SECTOR_SIZE = round_up v % U64 := by
  rw [ALIGN_UP_eq, round_up, U64]
  omega

theorem round_up_eq_add_pad (n : Nat) : round_up n = n + pad_len n := by
  unfold round_up pad_len
  split <;> omega

theorem pad_len_lt (n : Nat) : pad_len n < 512 := by
  unfold pad_len
  split <;> omega

theorem pad_len_eq_zero (n : Nat) : pad_len n = 0 ↔ n % 512 = 0 := by
  unfold pad_len
  split <;> omega

theorem pad_len_congr (a b : Nat) (h : a % 512 = b % 512) : pad_len a = pad_len b := by
  unfold pad_len
  rw [h]

theorem pad_len_mod (n : Nat) : pad_len (n % U64) = pad_len n := by
  apply pad_len_congr
  unfold U64
  omega

/-! ## The path buffer -/

theorem snprintf_length (dirpath d_name : List Char) : (snprintf dirpath d_name).length ≤ 255 := by
  unfold snprintf
  rw [List.length_take]
  exact Nat.min_le_left _ _

theorem snprintf_of_fits (dirpath d_name : List Char)
    (h : (dirpath ++ '/' :: d_name).length ≤ 255) :
    snprintf dirpath d_name = dirpath ++ '/' :: d_name := by
  unfold snprintf
  exact List.take_of_length_le h

theorem long_dir_length : long_dir.length = 250 := by
  unfold long_dir; exact List.length_replicate _ _

theorem take_long_dir :
    (long_dir ++ '/' :: long_name).take 255 = long_dir ++ ['/', 'a', 'b', 'c', 'd'] := by
  have e : long_dir ++ '/' :: long_name
      = (long_dir ++ ['/', 'a', 'b', 'c', 'd']) ++ ['e', 'f', 'g', 'h'] := by
    simp [long_name]
  have hl : (long_dir ++ ['/', 'a', 'b', 'c', 'd']).length = 255 := by
    simp [long_dir_length]
  rw [e]
  exact (take_append_drop_aux (long_dir ++ ['/', 'a', 'b', 'c', 'd']) ['e', 'f', 'g', 'h']
    255 0 hl).1

theorem walk_lines_length (p : List Char) (l : Dir) :
    ∀ ln ∈ walk_lines p l, ln.path.length ≤ 255 := by
  intro ln hln
  obtain ⟨parent, d_name, e, -, -⟩ := walk_lines_built p l ln hln
  rw [e]
  exact snprintf_length parent d_name

/-! ## Files appended in full -/

theorem file_total_appended (f : File) (t : Nat) (h : f.appended = true) :
    file_total f t = (t + f.content.length) % U64 := by
  cases f with
  | unopenable => simp [File.appended] at h
  | opened content data =>
    simp only [File.appended, Bool.and_eq_true, decide_eq_true_eq] at h
    simp [file_total, File.content, h.1]

theorem file_bytes_appended (f : File) (t : Nat) (h : f.appended = true) :
    file_bytes f t
      = f.content ++ List.replicate (pad_len ((t + f.content.length) % U64)) 0 := by
  cases f with
  | unopenable => simp [File.appended] at h
  | opened content data =>
    simp only [File.appended, Bool.and_eq_true, decide_eq_true_eq, beq_iff_eq] at h
    simp [file_bytes, File.content, h.1, h.2]

theorem mask_eq_mod (t : Nat) : t &&& (SECTOR_SIZE - 1) = t % 512 :=
  Nat.and_pow_two_sub_one_eq_mod t 9

/-! ## Sequences of files appended in full -/

theorem files_total_appended (fs : List File) (t : Nat) (h : ∀ f ∈ fs, f.appended = true)
    (ht : t < U64) : files_total fs t = (t + total_length fs) % U64 := by
  induction fs generalizing t with
  | nil => simp [files_total, total_length, Nat.mod_eq_of_lt ht]
  | cons f rest ih =>
    have hf := h f (List.mem_cons_self _ _)
    have hr : ∀ g ∈ rest, g.appended = true := fun g hg => h g (List.mem_cons_of_mem _ hg)
    have hlt : (t + f.content.length) % U64 < U64 := Nat.mod_lt _ (by unfold U64; norm_num)
    rw [files_total, file_total_appended f t hf, ih _ hr hlt]
    simp only [total_length, List.map_cons, List.sum_cons]
    unfold U64
    omega

theorem files_bytes_length (fs : List File) (t T : Nat) (h : ∀ f ∈ fs, f.appended = true)
    (ht : t % 512 = T % 512) :
    (files_bytes fs t).length
      = total_length fs
        + ((cumulative (fs.map (fun f => f.content.length)) T).map pad_len).sum := by
  induction fs generalizing t T with
  | nil => simp [files_bytes, total_length, cumulative]
  | cons f rest ih =>
    have hf := h f (List.mem_cons_self _ _)
    have hr : ∀ g ∈ rest, g.appended = true := fun g hg => h g (List.mem_cons_of_mem _ hg)
    have hc : (t + f.content.length) % U64 % 512 = (T + f.content.length) % 512 := by
      unfold U64; omega
    rw [files_bytes, file_bytes_appended f t hf, file_total_appended f t hf,
      List.length_append, List.length_append, List.length_replicate,
      ih _ (T + f.content.length) hr hc, pad_len_congr _ _ hc]
    simp only [total_length, List.map_cons, List.sum_cons, cumulative]
    omega

theorem pads_split (ls : List Nat) (T : Nat) (h : ls ≠ []) :
    ((cumulative ls T).map pad_len).sum
      = (((cumulative ls T).dropLast).map pad_len).sum + pad_len (T + ls.sum) := by
  induction ls generalizing T with
  | nil => exact absurd rfl h
  | cons n rest ih =>
    cases rest with
    | nil => simp [cumulative]
    | cons m r =>
      have := ih (T + n) (by simp)
      simp only [cumulative, List.map_cons, List.sum_cons, List.dropLast_cons₂] at this ⊢
      rw [this]
      simp only [Nat.add_assoc]

theorem pads_zero_iff (xs : List Nat) :
    (xs.map pad_len).sum = 0 ↔ ∀ T ∈ xs, T % 512 = 0 := by
  induction xs with
  | nil => simp
  | cons x xs ih =>
    simp only [List.map_cons, List.sum_cons, List.mem_cons, forall_eq_or_imp,
      Nat.add_eq_zero_iff, ih, pad_len_eq_zero]

/-! ## Files whose lengths are multiples of the sector size -/

/-- C1 (the code departs from the claim): in the scenario of the claim, `a.txt` of 3 bytes
followed by `sub/b.txt` of 600 bytes into a fresh output, `wrap` returns 0, the payload
region is 1533 bytes long, which rounds up to 1536, and the header decodes to 1024. -/
theorem scenario_header_undercounts :
    (wrap indir (some scenario) (some []) 0).1 = 0 ∧
    (payload (image (wrap indir (some scenario) (some []) 0))).length = 1533 ∧
    round_up (payload (image (wrap indir (some scenario) (some []) 0))).length = 1536 ∧
    header_value (image (wrap indir (some scenario) (some []) 0)) = 1024 := by
  have hp : (payload (image (wrap indir (some scenario) (some []) 0))).length = 1533 := by
    rw [payload_wrap, scenario_bytes]
    simp [-List.reduceReplicate, abc_length, b600_length]
  refine ⟨by rw [wrap_some], hp, ?_, ?_⟩
  · rw [hp]; decide
  · rw [header_wrap, scenario_total]; decide

/-- C2 (the code departs from the claim): starting from output position 512, after
`append_file` on a file of 3 bytes the position is 1024, and after `append_file` on a file of
600 bytes it is 2045, which is 509 modulo 512. -/
theorem position_after_second_file :
    start.out.pos = 512 ∧
    (append_file (.opened abc .mapped) start).out.pos = 1024 ∧
    (append_file (.opened b600 .mapped) (append_file (.opened abc .mapped) start)).out.pos
      = 2045 ∧
    (append_file (.opened b600 .mapped) (append_file (.opened abc .mapped) start)).out.pos
      % 512 = 509 := by
  have h1 : pad_len (3 % U64) = 509 := by decide
  have h2 : pad_len (603 % U64) = 421 := by decide
  simp [-List.reduceReplicate, append_file_eq, write_pos, file_bytes_mapped,
    file_total_mapped, abc_length, b600_length, start, lseek, SECTOR_SIZE, h1, h2]

/-- C3 (the code departs from the claim): for the flat directory holding `a.txt` (3 bytes),
`b.txt` (600 bytes) and `c.txt` (2 bytes) the payload region is the first content, 509 zero
bytes, the second content, 421 zero bytes, the third content and 419 zero bytes.  The third
file starts at payload offset 1533, not at 1536 = 512 + 1024 as in the layout of the claim:
the two bytes read at offset 1536 are zero, and the payload is not that layout. -/
theorem three_files_payload :
    payload (image (wrap indir (some three_files) (some []) 0))
      = (abc ++ List.replicate 509 0 ++ (b600 ++ List.replicate 421 0))
        ++ (xy ++ List.replicate 419 0) ∧
    round_up abc.length + round_up b600.length = 1536 ∧
    ((payload (image (wrap indir (some three_files) (some []) 0))).drop 1536).take xy.length
      = [0, 0] ∧
    ((payload (image (wrap indir (some three_files) (some []) 0))).drop 1533).take xy.length
      = xy ∧
    payload (image (wrap indir (some three_files) (some []) 0)) ≠ layout [abc, b600, xy] := by
  have hp : payload (image (wrap indir (some three_files) (some []) 0))
      = (abc ++ List.replicate 509 0 ++ (b600 ++ List.replicate 421 0))
        ++ (xy ++ List.replicate 419 0) := by
    rw [payload_wrap, three_files_bytes, List.drop_nil, List.append_nil]
  have hlen : (abc ++ List.replicate 509 0 ++ (b600 ++ List.replicate 421 0)).length
      = 1533 := by
    simp [-List.reduceReplicate, abc_length, b600_length]
  have d3 := (take_append_drop_aux (abc ++ List.replicate 509 0 ++ (b600 ++ List.replicate 421 0))
    (xy ++ List.replicate 419 0) 1533 3 hlen).2
  have d0 := (take_append_drop_aux (abc ++ List.replicate 509 0 ++ (b600 ++ List.replicate 421 0))
    (xy ++ List.replicate 419 0) 1533 0 hlen).2
  refine ⟨hp, by rw [abc_length, b600_length]; decide, ?_, ?_, ?_⟩
  · rw [hp, show (1536 : Nat) = 1533 + 3 from rfl, d3]; rfl
  · rw [hp, show (1533 : Nat) = 1533 + 0 from rfl, d0]; rfl
  · rw [hp]
    intro h
    have := congrArg List.length h
    have e1 : round_up 3 - 3 = 509 := by decide
    have e2 : round_up 600 - 600 = 424 := by decide
    have e3 : round_up 2 - 2 = 510 := by decide
    have hx : xy.length = 2 := rfl
    simp [-List.reduceReplicate, layout, padded, abc_length, b600_length, hx, e1, e2, e3]
      at this

/-- C4: whenever `wrap` returns 0, whatever the input tree, the prior content of the output
and the running total on entry (hence whatever the final running total, also one above
`2 ^ 64 - 512`), the value stored in bytes 0-7 of the image is a multiple of 512. -/
theorem header_multiple_of_sector (p : List Char) (input : Option Dir)
    (output : Option (List Nat)) (t0 : Nat) (h : (wrap p input output t0).1 = 0) :
    header_value (image (wrap p input output t0)) % 512 = 0 := by
  cases output with
  | none => simp [wrap] at h
  | some prior =>
    cases input with
    | none => simp [wrap, walk_dirs] at h
    | some l => rw [header_wrap]; exact ALIGN_UP_mod _

/-- Witness for C4: an empty input directory with the running total at `2 ^ 64 - 1`. -/
theorem header_multiple_of_sector_witness :
    (wrap indir (some Dir.eod) (some []) (2 ^ 64 - 1)).1 = 0 ∧
    header_value (image (wrap indir (some Dir.eod) (some []) (2 ^ 64 - 1))) % 512 = 0 :=
  ⟨by rw [wrap_some], header_multiple_of_sector indir (some Dir.eod) (some []) (2 ^ 64 - 1)
    (by rw [wrap_some])⟩

/-! ## The traversal -/

/-- C6: for every tree, `walk_dirs` on an opened directory returns 0, the paths it passes to
`append_file` are, in order, those of the pre-order depth-first flattening of the tree, and
the running total and the output it leaves are those of calling `append_file` on the files
of that flattening in order. -/
theorem walk_is_preorder (dirpath : List Char) (l : Dir) (st : St) :
    (walk_dirs dirpath (some l) st).1 = 0 ∧
    appended_paths (walk_dirs dirpath (some l) st).2.stdout
      = appended_paths st.stdout ++ (flatten dirpath l).map Prod.fst ∧
    (walk_dirs dirpath (some l) st).2.total_bytes
      = (((flatten dirpath l).map Prod.snd).foldl (fun s f => append_file f s) st).total_bytes ∧
    (walk_dirs dirpath (some l) st).2.out
      = (((flatten dirpath l).map Prod.snd).foldl (fun s f => append_file f s) st).out := by
  simp [walk_dirs, walk_loop_eq, foldl_append_file, appended_paths_append,
    appended_paths_walk_lines, ← walk_total_flatten dirpath, ← walk_bytes_flatten dirpath]

/-! ## Files that cannot be read, directories that cannot be opened -/

/-- C7 (the code departs from the claim): after a file of 3 bytes the output position is
1024, a multiple of 512, and the file ends there; appending a zero-length file then leaves
the running total at 3 and adds 509 zero bytes to the output. -/
theorem zero_length_file_pads_aligned_output :
    (append_file (.opened abc .mapped) start).out.pos = 1024 ∧
    (append_file (.opened abc .mapped) start).out.data.length = 1024 ∧
    (append_file (.opened [] .MAP_FAILED) (append_file (.opened abc .mapped) start)).out.data
      = (append_file (.opened abc .mapped) start).out.data ++ List.replicate 509 0 ∧
    (append_file (.opened [] .MAP_FAILED) (append_file (.opened abc .mapped) start)).total_bytes
      = 3 := by
  have h1 : pad_len (3 % U64) = 509 := by decide
  rw [after_abc]
  refine ⟨rfl, by simp [-List.reduceReplicate, abc_length], ?_, ?_⟩
  · rw [append_file_eq, write_at_end _ _ (by simp [-List.reduceReplicate, abc_length])]
    simp [-List.reduceReplicate, file_bytes, mapped_bytes, h1]
  · rw [append_file_eq]
    simp [file_total, U64]

/-- C8 (the code departs from the claim): with an input directory whose only entry is a
subdirectory that cannot be opened, `walk_dirs` on the input directory returns 0 after
printing the line of the subdirectory, `wrap` returns 0, and the header is written. -/
theorem unopenable_subdir_ignored :
    walk_dirs indir (some locked_sub) start
      = (0, { start with stdout := [Line.d ['i', 'n', '/', 's', 'u', 'b']] }) ∧
    (wrap indir (some locked_sub) (some []) 0).1 = 0 ∧
    image (wrap indir (some locked_sub) (some []) 0) = [0, 0, 0, 0, 0, 0, 0, 0] := by
  decide

/-- C9 (the code departs from the claim): for a file of 3 bytes that opens but whose mapping
fails (`mmap` returns `MAP_FAILED`, which is not `NULL`), `append_file` called with running
total 0 and output position 512 raises the running total to 3 and writes 509 zero bytes of
padding at offset 512, leaving the file 1021 bytes long. -/
theorem failed_mapping_not_atomic :
    start.total_bytes = 0 ∧ start.out = ⟨[], 512⟩ ∧
    (append_file (.opened abc .MAP_FAILED) start).total_bytes = 3 ∧
    (append_file (.opened abc .MAP_FAILED) start).out
      = ⟨List.replicate 512 0 ++ List.replicate 509 0, 1021⟩ := by
  have h1 : pad_len (3 % U64) = 509 := by decide
  have hne : List.replicate 509 0 ≠ [] := by
    intro h; have := congrArg List.length h; simp [-List.reduceReplicate] at this
  refine ⟨rfl, rfl, ?_, ?_⟩
  · rw [append_file_eq]; simp [file_total, abc_length, start, U64]
  · rw [append_file_eq]
    simp only [file_bytes, mapped_bytes, start, lseek, SECTOR_SIZE, abc_length, Nat.zero_add,
      h1, List.nil_append, reduceCtorEq, if_false]
    rw [write_hole 512 _ hne, List.length_replicate]

/-! ## Prior content of the output file -/

/-- C10, as stated, fails: with `a.txt` of 3 bytes as input and an output file that already
holds 1100 bytes, `wrap` returns 0 and the payload region of the image differs from the one
built into a fresh file. -/
theorem prior_content_survives :
    (wrap indir (some one_file) (some old_image) 0).1 = 0 ∧
    payload (image (wrap indir (some one_file) (some old_image) 0))
      ≠ payload (image (wrap indir (some one_file) (some []) 0)) := by
  refine ⟨by rw [wrap_some], ?_⟩
  rw [payload_wrap, payload_wrap, one_file_bytes]
  intro h
  have := congrArg List.length h
  simp only [List.length_append, List.length_drop, List.length_replicate, abc_length,
    old_image_length, List.length_nil] at this
  omega

/-- C10, amended: whenever `wrap` returns 0, the payload region of the image is the payload
region of the build into a fresh file followed by the prior bytes that lay beyond it (from
offset 512 plus its length on); so the two are equal when the prior content is no longer
than 512 bytes plus that payload. -/
theorem prior_content_beyond_payload (p : List Char) (input : Option Dir) (prior : List Nat)
    (t0 : Nat) (h : (wrap p input (some prior) t0).1 = 0) :
    payload (image (wrap p input (some prior) t0))
      = payload (image (wrap p input (some []) t0))
        ++ prior.drop (512 + (payload (image (wrap p input (some []) t0))).length) ∧
    (prior.length ≤ 512 + (payload (image (wrap p input (some []) t0))).length →
      payload (image (wrap p input (some prior) t0))
        = payload (image (wrap p input (some []) t0))) := by
  cases input with
  | none => simp [wrap, walk_dirs] at h
  | some l =>
    have e : payload (image (wrap p (some l) (some []) t0)) = walk_bytes l t0 := by
      rw [payload_wrap, List.drop_nil, List.append_nil]
    rw [e, payload_wrap]
    refine ⟨rfl, fun hle => ?_⟩
    rw [List.drop_eq_nil_of_le hle, List.append_nil]

/-- Witness for the amended C10: `a.txt` of 3 bytes built over an output file of 1100
bytes. -/
theorem prior_content_beyond_payload_witness :
    (wrap indir (some one_file) (some old_image) 0).1 = 0 ∧
    payload (image (wrap indir (some one_file) (some old_image) 0))
      = payload (image (wrap indir (some one_file) (some []) 0))
        ++ old_image.drop (512 + (payload (image (wrap indir (some one_file) (some []) 0))).length) :=
  ⟨by rw [wrap_some],
    (prior_content_beyond_payload indir (some one_file) old_image 0 (by rw [wrap_some])).1⟩

/-! ## The header sector -/

/-- C11 (the code departs from the claim): for an empty input directory and a fresh output
`wrap` returns 0 and the image is the eight header bytes alone, 8 bytes long, not 512. -/
theorem empty_input_image :
    (wrap indir (some Dir.eod) (some []) 0).1 = 0 ∧
    image (wrap indir (some Dir.eod) (some []) 0) = [0, 0, 0, 0, 0, 0, 0, 0] ∧
    (image (wrap indir (some Dir.eod) (some []) 0)).length = 8 := by
  decide

/-- C12: whenever `wrap` returns 0, the image is the output as the walk left it with bytes
0-7 replaced by the eight little-endian bytes of `ALIGN_UP(total_bytes, SECTOR_SIZE)`:
those bytes decode to that value, which is the running total rounded up to a multiple of
512 unless the addition wraps, and everything from offset 8 on, the payload region
included, is as before the header was written. -/
theorem header_finalization_frame (p : List Char) (input : Option Dir) (prior : List Nat)
    (t0 : Nat) (h : (wrap p input (some prior) t0).1 = 0) :
    (image (wrap p input (some prior) t0)).take 8
      = le64 (ALIGN_UP (walk_dirs p input ⟨t0, lseek ⟨prior, 0⟩ SECTOR_SIZE, []⟩).2.total_bytes
          SECTOR_SIZE) ∧
    header_value (image (wrap p input (some prior) t0))
      = ALIGN_UP (walk_dirs p input ⟨t0, lseek ⟨prior, 0⟩ SECTOR_SIZE, []⟩).2.total_bytes
          SECTOR_SIZE ∧
    ((walk_dirs p input ⟨t0, lseek ⟨prior, 0⟩ SECTOR_SIZE, []⟩).2.total_bytes + 511 < 2 ^ 64 →
      header_value (image (wrap p input (some prior) t0))
        = round_up (walk_dirs p input ⟨t0, lseek ⟨prior, 0⟩ SECTOR_SIZE, []⟩).2.total_bytes) ∧
    (image (wrap p input (some prior) t0)).drop 8
      = (walk_dirs p input ⟨t0, lseek ⟨prior, 0⟩ SECTOR_SIZE, []⟩).2.out.data.drop 8 ∧
    payload (image (wrap p input (some prior) t0))
      = (walk_dirs p input ⟨t0, lseek ⟨prior, 0⟩ SECTOR_SIZE, []⟩).2.out.data.drop 512 := by
  cases input with
  | none => simp [wrap, walk_dirs] at h
  | some l =>
    have hb : walk_dirs p (some l) ⟨t0, lseek ⟨prior, 0⟩ SECTOR_SIZE, []⟩
        = (0, ⟨walk_total l t0, write ⟨prior, 512⟩ (walk_bytes l t0), walk_lines p l⟩) := by
      simp [walk_dirs, walk_loop_eq, lseek, SECTOR_SIZE]
    have hh := header_wrap p l prior t0
    have hi := image_wrap p l prior t0
    obtain ⟨k1, -⟩ := take_append_drop_aux (le64 (ALIGN_UP (walk_total l t0) SECTOR_SIZE))
      ((write ⟨prior, 512⟩ (walk_bytes l t0)).data.drop 8) 8 0 (le64_length _)
    have k2 := (take_append_drop_aux (le64 (ALIGN_UP (walk_total l t0) SECTOR_SIZE))
      ((write ⟨prior, 512⟩ (walk_bytes l t0)).data.drop 8) 8 0 (le64_length _)).2
    have k3 := (take_append_drop_aux (le64 (ALIGN_UP (walk_total l t0) SECTOR_SIZE))
      ((write ⟨prior, 512⟩ (walk_bytes l t0)).data.drop 8) 8 504 (le64_length _)).2
    rw [hb, hh, hi]
    refine ⟨k1, rfl, fun hlt => ALIGN_UP_round_up _ hlt, ?_, ?_⟩
    · simpa using k2
    · unfold payload
      rw [List.drop_drop] at k3
      exact k3

/-- Witness for C12: the scenario built over an output file of 1100 bytes. -/
theorem header_finalization_frame_witness :
    (wrap indir (some scenario) (some old_image) 0).1 = 0 ∧
    (image (wrap indir (some scenario) (some old_image) 0)).drop 8
      = (walk_dirs indir (some scenario) ⟨0, lseek ⟨old_image, 0⟩ SECTOR_SIZE, []⟩).2.out.data.drop 8 :=
  ⟨by rw [wrap_some],
    (header_finalization_frame indir (some scenario) old_image 0 (by rw [wrap_some])).2.2.2.1⟩
/-! ## The paths the walker builds -/

/-- C13, as stated, fails: in a directory whose path is 250 bytes long, the regular file
`abcdefgh` is passed to `append_file` under the path of the directory followed by `/abcd`,
255 bytes, not under the directory path, `/` and `abcdefgh`; `open` fails on that path and
the walk returns 0 with nothing appended. -/
theorem long_path_truncated :
    walk_dirs long_dir (some long_entry) start
      = (0, { start with stdout := [Line.f (long_dir ++ ['/', 'a', 'b', 'c', 'd'])] }) ∧
    appended_paths (walk_dirs long_dir (some long_entry) start).2.stdout
      = [long_dir ++ ['/', 'a', 'b', 'c', 'd']] ∧
    appended_paths (walk_dirs long_dir (some long_entry) start).2.stdout
      ≠ [long_dir ++ '/' :: long_name] := by
  have hw : walk_dirs long_dir (some long_entry) start
      = (0, { start with stdout := [Line.f (long_dir ++ ['/', 'a', 'b', 'c', 'd'])] }) := by
    have hv : hidden long_name = false := by decide
    simp [walk_dirs, walk_loop, long_entry, hv, append_file, start, snprintf, take_long_dir]
  have h : appended_paths (walk_dirs long_dir (some long_entry) start).2.stdout
      = [long_dir ++ ['/', 'a', 'b', 'c', 'd']] := by
    rw [hw]; rfl
  refine ⟨hw, h, ?_⟩
  rw [h]
  intro e
  have := congrArg (fun x => (x.map List.length)) e
  simp [long_dir_length, long_name] at this

/-- C13, amended: when the loop of `walk_dirs` reaches a regular-file entry whose name does
not begin with a dot, whatever the lengths of the directory path and of the name, it prints
and passes to `append_file` the first 255 bytes of the directory path followed by `/` and
the name, and goes on with the rest of the stream; that path is the whole joined string
whenever the string is at most 255 bytes long, and is 255 bytes long whenever the string is
longer. -/
theorem path_passed_is_cut (dirpath d_name : List Char) (file : File) (rest : Dir) (st : St)
    (hvis : hidden d_name = false) :
    walk_dirs dirpath (some (.reg d_name file rest)) st
      = walk_dirs dirpath (some rest)
          (append_file file
            { st with stdout := st.stdout ++ [Line.f ((dirpath ++ '/' :: d_name).take 255)] }) ∧
    appended_paths (walk_dirs dirpath (some (.reg d_name file rest)) st).2.stdout
      = appended_paths st.stdout
        ++ (dirpath ++ '/' :: d_name).take 255 :: (flatten dirpath rest).map Prod.fst ∧
    ((dirpath ++ '/' :: d_name).length ≤ 255 →
      (dirpath ++ '/' :: d_name).take 255 = dirpath ++ '/' :: d_name) ∧
    (255 < (dirpath ++ '/' :: d_name).length →
      ((dirpath ++ '/' :: d_name).take 255).length = 255) := by
  refine ⟨?_, ?_, fun hle => List.take_of_length_le hle, fun hlt => ?_⟩
  · simp [walk_dirs, walk_loop, hvis, snprintf]
  · simp [walk_dirs, walk_loop_eq, walk_lines, hvis, appended_paths_append, appended_paths,
      appended_paths_walk_lines, snprintf]
  · rw [List.length_take]
    exact Nat.min_eq_left (Nat.le_of_lt hlt)

/-- Witness for the amended C13: the file `abcdefgh` in a directory whose path is 250 bytes
long. -/
theorem path_passed_is_cut_witness :
    hidden long_name = false ∧
    walk_dirs long_dir (some long_entry) start
      = walk_dirs long_dir (some Dir.eod)
          (append_file File.unopenable
            { start with stdout := start.stdout
                ++ [Line.f ((long_dir ++ '/' :: long_name).take 255)] }) :=
  ⟨by decide, (path_passed_is_cut long_dir long_name File.unopenable Dir.eod start
    (by decide)).1⟩

/-- C14: for every directory path and entry name the path `walk_dirs` builds is at most 255
bytes long, is a prefix of the directory path followed by `/` and the name, and is equal to
it whenever that string is at most 255 bytes long; so every path the walk recurses into or
passes to `append_file` is at most 255 bytes long. -/
theorem path_fits_buffer (dirpath d_name : List Char) (l : Dir) (st : St) :
    (snprintf dirpath d_name).length ≤ 255 ∧
    (∃ cut, dirpath ++ '/' :: d_name = snprintf dirpath d_name ++ cut) ∧
    ((dirpath ++ '/' :: d_name).length ≤ 255 →
      snprintf dirpath d_name = dirpath ++ '/' :: d_name) ∧
    (∀ ln ∈ (walk_dirs dirpath (some l) { st with stdout := [] }).2.stdout,
      ln.path.length ≤ 255) := by
  refine ⟨snprintf_length _ _, ⟨(dirpath ++ '/' :: d_name).drop 255, ?_⟩,
    snprintf_of_fits _ _, ?_⟩
  · unfold snprintf
    exact (List.take_append_drop 255 _).symm
  · simp only [walk_dirs, walk_loop_eq, List.nil_append]
    exact walk_lines_length dirpath l
/-! ## The bytes and the totals of append_file -/

/-- C15: for every file appended in full, `append_file` adds the length of the file to the
running total modulo `2 ^ 64`, writes the content verbatim and then padding bytes that are
all zero, none when the new total is a multiple of 512 and 512 minus the total modulo 512
otherwise; and `total & 511` is the total modulo 512 for every total. -/
theorem append_file_writes (file : File) (st : St) (h : file.appended = true) :
    (append_file file st).total_bytes = (st.total_bytes + file.content.length) % U64 ∧
    (append_file file st).out
      = write (write st.out file.content)
          (List.replicate
            (if (st.total_bytes + file.content.length) % U64 % 512 = 0 then 0
              else 512 - (st.total_bytes + file.content.length) % U64 % 512) 0) ∧
    (∀ total : Nat, total &&& (SECTOR_SIZE - 1) = total % 512) := by
  refine ⟨?_, ?_, mask_eq_mod⟩
  · rw [append_file_eq, file_total_appended file _ h]
  · rw [append_file_eq, file_bytes_appended file _ h, write_write]
    rfl

/-- Witness for C15: the three bytes of `a.txt` appended at the start of a build. -/
theorem append_file_writes_witness :
    (File.opened abc Ptr.mapped).appended = true ∧
    (append_file (.opened abc .mapped) start).total_bytes
      = (start.total_bytes + (File.opened abc .mapped).content.length) % U64 :=
  ⟨by decide, (append_file_writes (.opened abc .mapped) start (by decide)).1⟩

/-- C17: for every `v` with `v + 511 < 2 ^ 64`, `ALIGN_UP(v, 512)` is `(v + 511) / 512 * 512`,
a multiple of 512 that is at least `v`, at most every multiple of 512 that is at least `v`,
less than 512 above `v`, equal to `v` when `v` is a multiple of 512, and unchanged by a
second `ALIGN_UP`. -/
theorem ALIGN_UP_least_multiple (v : Nat) (h : v + 511 < 2 ^ 64) :
    ALIGN_UP v SECTOR_SIZE = (v + 511) / 512 * 512 ∧
    ALIGN_UP v SECTOR_SIZE % 512 = 0 ∧
    v ≤ ALIGN_UP v SECTOR_SIZE ∧
    (∀ m, m % 512 = 0 → v ≤ m → ALIGN_UP v SECTOR_SIZE ≤ m) ∧
    ALIGN_UP v SECTOR_SIZE - v < 512 ∧
    (v % 512 = 0 → ALIGN_UP v SECTOR_SIZE = v) ∧
    ALIGN_UP (ALIGN_UP v SECTOR_SIZE) SECTOR_SIZE = ALIGN_UP v SECTOR_SIZE := by
  have e : ALIGN_UP v SECTOR_SIZE = (v + 511) / 512 * 512 := by
    rw [ALIGN_UP_round_up v h, round_up]
  have h2 : (v + 511) / 512 * 512 + 511 < 2 ^ 64 := by omega
  have e2 : ALIGN_UP ((v + 511) / 512 * 512) SECTOR_SIZE = (v + 511) / 512 * 512 := by
    rw [ALIGN_UP_round_up _ h2, round_up]
    omega
  rw [e]
  refine ⟨rfl, by omega, by omega, fun m hm hv => by omega, by omega, fun hv => by omega, e2⟩

/-- Witness for C17: `ALIGN_UP(603, 512)`. -/
theorem ALIGN_UP_least_multiple_witness :
    603 + 511 < 2 ^ 64 ∧ ALIGN_UP 603 SECTOR_SIZE = (603 + 511) / 512 * 512 :=
  ⟨by decide, (ALIGN_UP_least_multiple 603 (by decide)).1⟩

/-- C18: the assertion `pad_len < SECTOR_SIZE` never fails: `append_file` with the assertion
as a branch always returns what `append_file` returns; for every running total, `total & 511`
fits the 16-bit `misalign`, and when it is not zero `pad_len = 512 - misalign` lies between 1
and 511 and is not changed by the conversion to `size_t`. -/
theorem assertion_never_fails (file : File) (st : St) :
    append_file_checked file st = some (append_file file st) ∧
    (∀ total : Nat,
      (total &&& (SECTOR_SIZE - 1)) % 2 ^ 16 = total &&& (SECTOR_SIZE - 1) ∧
      ((total &&& (SECTOR_SIZE - 1)) % 2 ^ 16 ≠ 0 →
        1 ≤ SECTOR_SIZE - (total &&& (SECTOR_SIZE - 1)) % 2 ^ 16 ∧
        SECTOR_SIZE - (total &&& (SECTOR_SIZE - 1)) % 2 ^ 16 ≤ 511 ∧
        (SECTOR_SIZE + U64 - (total &&& (SECTOR_SIZE - 1)) % 2 ^ 16) % U64
          = SECTOR_SIZE - (total &&& (SECTOR_SIZE - 1)) % 2 ^ 16)) := by
  have key : ∀ total : Nat,
      (total &&& (SECTOR_SIZE - 1)) % 2 ^ 16 = total &&& (SECTOR_SIZE - 1) ∧
      ((total &&& (SECTOR_SIZE - 1)) % 2 ^ 16 ≠ 0 →
        1 ≤ SECTOR_SIZE - (total &&& (SECTOR_SIZE - 1)) % 2 ^ 16 ∧
        SECTOR_SIZE - (total &&& (SECTOR_SIZE - 1)) % 2 ^ 16 ≤ 511 ∧
        (SECTOR_SIZE + U64 - (total &&& (SECTOR_SIZE - 1)) % 2 ^ 16) % U64
          = SECTOR_SIZE - (total &&& (SECTOR_SIZE - 1)) % 2 ^ 16) := by
    intro total
    have hm := misalign_eq_mod total
    have hk := mask_eq_mod total
    rw [hm, hk]
    unfold SECTOR_SIZE U64
    omega
  refine ⟨?_, key⟩
  cases file with
  | unopenable => rfl
  | opened content data =>
    by_cases hd : data = Ptr.NULL
    · simp [append_file_checked, append_file, hd]
    · obtain ⟨-, hk⟩ := key ((st.total_bytes + content.length) % U64)
      by_cases hz : (((st.total_bytes + content.length) % U64) &&& (SECTOR_SIZE - 1)) % 2 ^ 16 = 0
      · simp only [append_file_checked, append_file, hd, if_false, hz, ne_eq, not_true_eq_false]
      · obtain ⟨h1, h2, h3⟩ := hk hz
        have hlt : SECTOR_SIZE
            - (((st.total_bytes + content.length) % U64) &&& (SECTOR_SIZE - 1)) % 2 ^ 16
            < SECTOR_SIZE := by
          unfold SECTOR_SIZE at *; omega
        simp only [append_file_checked, append_file, hd, if_false, hz, ne_eq,
          not_false_eq_true, if_true, hlt, h3]
/-! ## The running total, the header and the payload -/

/-- C16: for every build whose appended files are all appended in full, the running total
before the header is written is the sum of their byte lengths modulo `2 ^ 64`, padding not
counted, and the header value is `ALIGN_UP` of that sum: the sum rounded up to a multiple of
512, reduced modulo `2 ^ 64`, hence the rounded sum itself unless the addition of 511
wraps. -/
theorem running_total_is_sum (p : List Char) (l : Dir) (prior : List Nat) (fs : List File)
    (hfs : (flatten p l).map Prod.snd = fs) (hall : ∀ f ∈ fs, f.appended = true) :
    (walk_dirs p (some l) ⟨0, lseek ⟨prior, 0⟩ SECTOR_SIZE, []⟩).2.total_bytes
      = total_length fs % U64 ∧
    header_value (image (wrap p (some l) (some prior) 0))
      = ALIGN_UP (total_length fs % U64) SECTOR_SIZE ∧
    header_value (image (wrap p (some l) (some prior) 0))
      = round_up (total_length fs % U64) % U64 ∧
    (total_length fs % U64 + 511 < U64 →
      header_value (image (wrap p (some l) (some prior) 0))
        = round_up (total_length fs % U64)) := by
  have ht : walk_total l 0 = total_length fs % U64 := by
    rw [walk_total_flatten p l 0, hfs,
      files_total_appended fs 0 hall (by unfold U64; norm_num), Nat.zero_add]
  refine ⟨?_, ?_, ?_, ?_⟩
  · simp [walk_dirs, walk_loop_eq, ht]
  · rw [header_wrap, ht]
  · rw [header_wrap, ht, ALIGN_UP_round_up_mod]
  · intro hlt
    rw [header_wrap, ht]
    exact ALIGN_UP_round_up _ hlt

/-- Witness for C16: `a.txt` (3 bytes) and `c.txt` (2 bytes). -/
theorem running_total_is_sum_witness :
    (∀ f ∈ [File.opened abc Ptr.mapped, File.opened xy Ptr.mapped], f.appended = true) ∧
    (walk_dirs indir (some two_small) ⟨0, lseek ⟨[], 0⟩ SECTOR_SIZE, []⟩).2.total_bytes
      = total_length [File.opened abc .mapped, File.opened xy .mapped] % U64 :=
  ⟨by decide,
    (running_total_is_sum indir two_small [] [File.opened abc .mapped, File.opened xy .mapped]
      (by decide) (by decide)).1⟩

/-- C19: for every build into a fresh output whose appended files are all appended in full
and whose lengths sum to less than `2 ^ 64 - 511`, the header value is at most the number of
payload bytes written, and equal to it exactly when every cumulative total of the lengths
after each file except the last is a multiple of 512. -/
theorem header_at_most_payload (p : List Char) (l : Dir) (fs : List File)
    (hfs : (flatten p l).map Prod.snd = fs) (hall : ∀ f ∈ fs, f.appended = true)
    (hsum : total_length fs < 2 ^ 64 - 511) :
    header_value (image (wrap p (some l) (some []) 0))
      ≤ (payload (image (wrap p (some l) (some []) 0))).length ∧
    (header_value (image (wrap p (some l) (some []) 0))
        = (payload (image (wrap p (some l) (some []) 0))).length ↔
      ∀ T ∈ (cumulative (fs.map (fun f => f.content.length)) 0).dropLast, T % 512 = 0) := by
  have hS : total_length fs % U64 = total_length fs :=
    Nat.mod_eq_of_lt (by unfold U64; omega)
  have hh : header_value (image (wrap p (some l) (some []) 0))
      = total_length fs + pad_len (total_length fs) := by
    rw [header_wrap, walk_total_flatten p l 0, hfs,
      files_total_appended fs 0 hall (by unfold U64; norm_num), Nat.zero_add, hS,
      ALIGN_UP_round_up _ (by omega), round_up_eq_add_pad]
  have hp : (payload (image (wrap p (some l) (some []) 0))).length
      = total_length fs
        + ((cumulative (fs.map (fun f => f.content.length)) 0).map pad_len).sum := by
    rw [payload_wrap, List.drop_nil, List.append_nil, walk_bytes_flatten p l 0, hfs,
      files_bytes_length fs 0 0 hall rfl]
  rw [hh, hp]
  by_cases hn : fs = []
  · subst hn
    simp [cumulative, total_length, pad_len]
  · have hne : fs.map (fun f => f.content.length) ≠ [] := by simpa using hn
    have hs := pads_split _ 0 hne
    have e : (fs.map (fun f => f.content.length)).sum = total_length fs := rfl
    rw [Nat.zero_add, e] at hs
    rw [hs, ← pads_zero_iff]
    constructor
    · omega
    · omega

/-- Witness for C19: `a.txt` (3 bytes) and `c.txt` (2 bytes) into a fresh output. -/
theorem header_at_most_payload_witness :
    (∀ f ∈ [File.opened abc Ptr.mapped, File.opened xy Ptr.mapped], f.appended = true) ∧
    total_length [File.opened abc Ptr.mapped, File.opened xy Ptr.mapped] < 2 ^ 64 - 511 ∧
    header_value (image (wrap indir (some two_small) (some []) 0))
      ≤ (payload (image (wrap indir (some two_small) (some []) 0))).length :=
  ⟨by decide, by decide,
    (header_at_most_payload indir two_small [File.opened abc .mapped, File.opened xy .mapped]
      (by decide) (by decide) (by decide)).1⟩
end Swrap
